import Mathlib

/-!
# kube-secrets: a shallow embedding of `lib.go`

Go strings and byte slices are finite sequences of bytes; both are embedded as
`List (Fin 256)`.  The operating system (files, the `EDITOR` variable, the
editor process) is an explicit `World` value, and the YAML library is a
parameter `Yaml`.  The standard library functions used by `lib.go`
(`encoding/base64`, `path/filepath`, `sort.Strings`, `strings.TrimSuffix`) are
embedded from their Go definitions.
-/

namespace KubeSecrets

/-! ## Bytes and strings -/

/-- One byte. -/
abbrev Byte := Fin 256

/-- Go `string` (and `[]byte`): an arbitrary byte sequence, not necessarily UTF-8. -/
abbrev GoString := List Byte

/-- Bytes of an ASCII literal (used only on ASCII text). -/
def goStr (s : String) : GoString := s.toList.map (fun c => Fin.ofNat c.toNat)

/-- Go `error`: `none` is `nil`, `some m` is `errors.New(m)`. -/
abbrev error := Option GoString

def S_ERROR_FAILED_TO_PARSE : GoString := goStr "Failed to parse yml"
def S_ERROR_LOADING_SECRETS_FILE : GoString := goStr "Error loading secrets file"
def S_ERROR_NOT_SECRETS_FILE : GoString := goStr "Not a Kubernetes secret"
def S_ERROR_OPENING_UPDATE_FILE : GoString := goStr "Failed opening file to update"
def S_ERROR_OPENING_EDITOR : GoString := goStr "Failed to launch editor"
def S_ERROR_PARAMETER_U : GoString := goStr "Can not use -u and -U together"
def S_FILE_CREATED : GoString := goStr "File created"
def S_FILE_UPDATED : GoString := goStr "File updated"
def S_KEY_DELETED : GoString := goStr "Key deleted"
def S_KEY_NOT_FOUND : GoString := goStr "Key not found"
def S_MISSING_EDITOR_VAR : GoString := goStr "Missing EDITOR environment variable"
def S_MISSING_PARAMETER_KEY : GoString := goStr "Missing require parameter key"
def S_NO_UPDATES : GoString := goStr "No updates"

/-! ## `encoding/base64`, `StdEncoding` -/

/-- The standard alphabet, `encodeStd` of `encoding/base64`. -/
def encodeStd : GoString :=
  goStr "ABCDEFGHIJKLMNOPQRSTUVWXYZabcdefghijklmnopqrstuvwxyz0123456789+/"

/-- The table lookup `enc.encode[i]`, for `i < 64`. -/
def encChar (i : Nat) : Byte := encodeStd.getD i 0

/-- The padding character `=`. -/
def padChar : Byte := 61

/-- The table lookup `enc.decodeMap[c]`: `none` stands for the entry `0xff`. -/
def decodeMap (c : Byte) : Option Nat := encodeStd.indexOf? c

/-- Go `base64.StdEncoding.EncodeToString`: three bytes give the 24-bit value
`a<<16 | b<<8 | c`, emitted as four 6-bit digits; a remainder of one or two
bytes is emitted as two or three digits and padded with `=`. -/
def EncodeToString : List Byte → GoString
  | a :: b :: c :: rest =>
    let val := a.val * 65536 + b.val * 256 + c.val
    encChar (val / 262144 % 64) :: encChar (val / 4096 % 64) ::
      encChar (val / 64 % 64) :: encChar (val % 64) :: EncodeToString rest
  | [a, b] =>
    let val := a.val * 65536 + b.val * 256
    [encChar (val / 262144 % 64), encChar (val / 4096 % 64), encChar (val / 64 % 64), padChar]
  | [a] =>
    let val := a.val * 65536
    [encChar (val / 262144 % 64), encChar (val / 4096 % 64), padChar, padChar]
  | [] => []

/-- The loops `for si < len(src) && (src[si] == '\n' || src[si] == '\r')` of `decodeQuantum`. -/
def skipNewlines : List Byte → List Byte
  | c :: cs => if c = 10 ∨ c = 13 then skipNewlines cs else c :: cs
  | [] => []

/-- The tail of `decodeQuantum`: the 6-bit digits are packed into
`d0<<18 | d1<<12 | d2<<6 | d3` and the first `dlen - 1` of its three bytes are written. -/
def quantum (d0 d1 d2 d3 dlen : Nat) : List Byte :=
  let val := d0 * 262144 + d1 * 4096 + d2 * 64 + d3
  ([Fin.ofNat (val / 65536), Fin.ofNat (val / 256), Fin.ofNat val] : List Byte).take (dlen - 1)

/-- The loop of `Encoding.Decode` over `decodeQuantum`, non-strict, with padding.
`dbuf` holds the digits read so far in the current quantum.  The result is the
bytes written (`dbuf[:n]`) and whether `err == nil`. -/
def decodeLoop : List Byte → List Nat → List Byte × Bool
  | [], [] => ([], true)
  | [], _ :: _ => ([], false)
  | c :: src, dbuf =>
    match decodeMap c with
    | some out =>
      match dbuf with
      | [d0, d1, d2] =>
        let r := decodeLoop src []
        (quantum d0 d1 d2 out 4 ++ r.1, r.2)
      | _ => decodeLoop src (dbuf ++ [out])
    | none =>
      if c = 10 ∨ c = 13 then decodeLoop src dbuf
      else if c ≠ padChar then ([], false)
      else
        match dbuf with
        | [d0, d1] =>
          match skipNewlines src with
          | [] => ([], false)
          | p :: src2 =>
            if p ≠ padChar then ([], false)
            else (quantum d0 d1 0 0 2, (skipNewlines src2).isEmpty)
        | [d0, d1, d2] => (quantum d0 d1 d2 0 3, (skipNewlines src).isEmpty)
        | _ => ([], false)

/-- Go `base64.StdEncoding.DecodeString`: the decoded bytes and whether the error is `nil`. -/
def DecodeString (s : GoString) : List Byte × Bool := decodeLoop s []

/-! ## `path/filepath` (Unix), `strings`, `sort` -/

/-- The loop of `filepath.Ext` over the reversed path: walk back from the end
until a separator; at the first dot return the suffix starting there. -/
def extLoop : List Byte → List Byte → GoString
  | [], _ => []
  | c :: cs, acc => if c = 47 then [] else if c = 46 then c :: acc else extLoop cs (c :: acc)

/-- Go `filepath.Ext`: the suffix beginning at the final dot in the final element of
`path`; empty if there is no dot. -/
def Ext (path : GoString) : GoString := extLoop path.reverse []

/-- Go `filepath.Base`: the last element of `path`.  Trailing slashes are removed
first; the empty path gives `.`, a path of slashes only gives `/`. -/
def Base (path : GoString) : GoString :=
  if path = [] then goStr "."
  else
    let stripped := path.reverse.dropWhile (fun c => c = 47)
    let last := (stripped.takeWhile (fun c => c ≠ 47)).reverse
    if last = [] then goStr "/" else last

/-- Go `strings.TrimSuffix`. -/
def TrimSuffix (s suffix : GoString) : GoString :=
  if suffix.isSuffixOf s then s.take (s.length - suffix.length) else s

/-- The comparison `a < b` of Go strings: byte-wise lexicographic order. -/
def strLess : GoString → GoString → Bool
  | [], [] => false
  | [], _ :: _ => true
  | _ :: _, [] => false
  | a :: as, b :: bs => if a < b then true else if b < a then false else strLess as bs

/-- The order `a ≤ b` on strings, that is `!(b < a)`. -/
def strLe (a b : GoString) : Prop := strLess b a = false

instance : DecidableRel strLe := fun a b => inferInstanceAs (Decidable (strLess b a = false))

/-- Go `sort.Strings`: sorts in increasing order. -/
def sortStrings (keys : List GoString) : List GoString := keys.insertionSort strLe

/-! ## Data model -/

/-- Go `map[string]string`; `none` is the nil map.  The entries are kept in
some order without duplicate keys; that order is the iteration order. -/
abbrev GoMap := Option (AList (fun _ : GoString => GoString))

/-- The read `m[key]`: the zero value `""` when the key is absent or the map is nil. -/
def mapGet (m : GoMap) (key : GoString) : GoString := (m.bind (fun a => a.lookup key)).getD []

/-- The test `_, ok := m[key]`. -/
def mapHas (m : GoMap) (key : GoString) : Bool := (m.bind (fun a => a.lookup key)).isSome

/-- The builtin `delete(m, key)`; a no-op on the nil map. -/
def mapDelete (m : GoMap) (key : GoString) : GoMap := m.map (fun a => a.erase key)

/-- The assignment `m[key] = value`; `none` is the run-time panic
"assignment to entry in nil map". -/
def mapSet (m : GoMap) (key value : GoString) : Option GoMap :=
  match m with
  | none => none
  | some a => some (some (a.insert key value))

/-- The keys visited by `for key := range m`. -/
def mapKeys (m : GoMap) : List GoString :=
  match m with
  | none => []
  | some a => a.keys

/-- The anonymous struct of the `Metadata` field. -/
structure MetadataT where
  Name : GoString
  Namespace : GoString
deriving DecidableEq

/-- The struct `secrets`. -/
structure secrets where
  APIVersion : GoString
  Kind : GoString
  Type_ : GoString
  Metadata : MetadataT
  Data : GoMap
  updateValue : GoString
deriving DecidableEq

/-- The zero value `var s secrets`. -/
def secrets.zero : secrets :=
  { APIVersion := [], Kind := [], Type_ := [], Metadata := { Name := [], Namespace := [] },
    Data := none, updateValue := [] }

/-- How a function ends: it returns, the process exits, or the run time panics. -/
inductive Outcome (α : Type) where
  | ret (a : α)
  | exit (code : Nat)
  | panic
deriving DecidableEq

/-! ## The environment -/

/-- What running the editor on the temporary file gives: a failure of
`cmd.Start`, `cmd.Wait` or of reading the file back, or the final content of the file. -/
inductive EditorRun where
  | failed (err : GoString)
  | done (content : List Byte)
deriving DecidableEq

/-- The operating system as `lib.go` sees it.  `files` maps a path to its
content when `ioutil.ReadFile` succeeds; `writable` says whether
`ioutil.WriteFile` succeeds (a failed write leaves `files` as it was);
`EDITOR` is `os.Getenv("EDITOR")` (empty when unset); `lookPath` is
`exec.LookPath`; `tempFileOk` says whether the temporary file can be created
and written; `run` is the editor process on the resolved path and staged
content.  The temporary file is not one of `files`, and the editor process
leaves `files` alone. -/
structure World where
  files : GoString → Option (List Byte)
  writable : GoString → Bool
  EDITOR : GoString
  lookPath : GoString → Option GoString
  tempFileOk : Bool
  run : GoString → List Byte → EditorRun

/-- The library `github.com/go-yaml/yaml` on the type `secrets`.  `Marshal`
gives `none` on error; `Unmarshal data c` decodes into `c` and gives `none` on
error.  The field `updateValue` is unexported, so decoding never touches it. -/
structure Yaml where
  Marshal : secrets → Option (List Byte)
  Unmarshal : List Byte → secrets → Option secrets
  unexported : ∀ data c c', Unmarshal data c = some c' → c'.updateValue = c.updateValue

/-- Go `ioutil.WriteFile(filename, data, 0644)`. -/
def WriteFile (w : World) (filename : GoString) (data : List Byte) : World × error :=
  if w.writable filename then
    ({ w with files := fun p => if p = filename then some data else w.files p }, none)
  else (w, some (goStr "open: permission denied"))

/-! ## `lib.go` -/

/-- Go `func (c *secrets) loadSecretsFile(filename string) error`, with the receiver
after the call. -/
def loadSecretsFile (Y : Yaml) (w : World) (c : secrets) (filename : GoString) :
    secrets × error :=
  match w.files filename with
  | none => (c, some S_ERROR_LOADING_SECRETS_FILE)
  | some yamlFile =>
    match Y.Unmarshal yamlFile c with
    | none => (c, some S_ERROR_FAILED_TO_PARSE)
    | some c' =>
      if c'.Kind ≠ goStr "Secret" then (c', some S_ERROR_NOT_SECRETS_FILE)
      else (c', none)

/-- Go `func listKeys(filename string) (error, string)`. -/
def listKeys (Y : Yaml) (w : World) (filename : GoString) : error × GoString :=
  match loadSecretsFile Y w secrets.zero filename with
  | (_, some _) => (some S_ERROR_LOADING_SECRETS_FILE, [])
  | (s, none) =>
    let keys := sortStrings (mapKeys s.Data)
    (none, keys.foldl (fun buffer key => buffer ++ (key ++ goStr "\n")) [])

/-- Go `func (s *secrets) hasKey(key string) bool`. -/
def hasKey (s : secrets) (key : GoString) : Bool := mapHas s.Data key

/-- Go `func (s *secrets) checkForUpdateValue(updateString string, updateFile string) error`,
with the receiver after the call. -/
def checkForUpdateValue (w : World) (s : secrets) (updateString updateFile : GoString) :
    secrets × error :=
  if updateString ≠ [] then ({ s with updateValue := updateString }, none)
  else if updateFile ≠ [] then
    match w.files updateFile with
    | none => (s, some S_ERROR_OPENING_UPDATE_FILE)
    | some data => ({ s with updateValue := data }, none)
  else (s, none)

/-- Go `func editor(openWith []byte) (string, error)`. -/
def editor (w : World) (openWith : List Byte) : Outcome (GoString × error) :=
  let editor := w.EDITOR
  if editor = [] then .ret ([], some S_MISSING_EDITOR_VAR)
  else
    match w.lookPath editor with
    | none => .ret ([], some S_ERROR_OPENING_EDITOR)
    | some path =>
      if w.tempFileOk = false then .exit 3
      else
        match w.run path openWith with
        | .failed err => .ret ([], some err)
        | .done b =>
          let b := if editor = goStr "vi" ∨ editor = goStr "vim" then TrimSuffix b (goStr "\n") else b
          .ret (EncodeToString b, none)

/-- The first statement of `writeSecrets`: an empty namespace becomes `default`. -/
def defaultNamespace (s : secrets) : secrets :=
  if s.Metadata.Namespace = [] then
    { s with Metadata := { s.Metadata with Namespace := goStr "default" } }
  else s

/-- Go `func (s *secrets) writeSecrets(filename string) error`.  A `Marshal` error is
only printed, and the nil slice is written. -/
def writeSecrets (Y : Yaml) (w : World) (s : secrets) (filename : GoString) : World × error :=
  let s := defaultNamespace s
  let newYML := (Y.Marshal s).getD []
  WriteFile w filename newYML

/-- Go `func (s *secrets) validateKey(key string) error`. -/
def validateKey (s : secrets) (key : GoString) : error :=
  if key = [] then some S_MISSING_PARAMETER_KEY
  else if hasKey s key = false then some S_KEY_NOT_FOUND
  else none

/-- Go `func createNewSecrets(filename, key, updateString, updateFile string) error`. -/
def createNewSecrets (Y : Yaml) (w : World) (filename key updateString updateFile : GoString) :
    World × Outcome error :=
  let s : secrets :=
    { secrets.zero with APIVersion := goStr "v1", Kind := goStr "Secret", Type_ := goStr "Opaque" }
  let s := (checkForUpdateValue w s updateString updateFile).1
  let ext := Ext filename
  let s := { s with
    Metadata := { s.Metadata with Name := Base (filename.take (filename.length - ext.length)) } }
  let finish (updateValue : GoString) : World × Outcome error :=
    let s := { s with Data := some (AList.insert key updateValue ∅) }
    ((writeSecrets Y w s filename).1, .ret none)
  if s.updateValue = [] then
    match editor w [] with
    | .ret (_, some err) => (w, .ret (some err))
    | .ret (uv, none) => finish uv
    | .exit code => (w, .exit code)
    | .panic => (w, .panic)
  else finish (EncodeToString s.updateValue)

/-- Go `func deleteSecret(filename string, key string) error`. -/
def deleteSecret (Y : Yaml) (w : World) (filename key : GoString) : World × error :=
  match loadSecretsFile Y w secrets.zero filename with
  | (_, some load_err) => (w, some load_err)
  | (s, none) =>
    match validateKey s key with
    | some err => (w, some err)
    | none =>
      let s := { s with Data := mapDelete s.Data key }
      ((writeSecrets Y w s filename).1, none)

/-- Go `func showSecretsFile(filename string, key string) (error, string)`. -/
def showSecretsFile (Y : Yaml) (w : World) (filename key : GoString) : error × GoString :=
  match loadSecretsFile Y w secrets.zero filename with
  | (_, some err) => (some err, [])
  | (s, none) =>
    match validateKey s key with
    | some err => (some err, [])
    | none => (none, (DecodeString (mapGet s.Data key)).1)

/-- Go `func updateSecretsFile(filename, key, updateString, updateFile string) (error, string)`. -/
def updateSecretsFile (Y : Yaml) (w : World) (filename key updateString updateFile : GoString) :
    World × Outcome (error × GoString) :=
  match loadSecretsFile Y w secrets.zero filename with
  | (_, some _) => (w, .ret (some S_ERROR_LOADING_SECRETS_FILE, []))
  | (s, none) =>
    let s := (checkForUpdateValue w s updateString updateFile).1
    let finish (newValue : GoString) : World × Outcome (error × GoString) :=
      if newValue = mapGet s.Data key then (w, .ret (none, S_NO_UPDATES))
      else
        match mapSet s.Data key newValue with
        | none => (w, .panic)
        | some data =>
          ((writeSecrets Y w { s with Data := data } filename).1, .ret (none, S_FILE_UPDATED))
    if s.updateValue ≠ [] then finish (EncodeToString s.updateValue)
    else
      match editor w (DecodeString (mapGet s.Data key)).1 with
      | .ret (_, some _) => (w, .ret (some S_ERROR_OPENING_EDITOR, []))
      | .ret (newEditorValue, none) => finish newEditorValue
      | .exit code => (w, .exit code)
      | .panic => (w, .panic)

/-- Go `func printUsage() string`; the constant `VERSION` is declared outside `lib.go`. -/
def printUsage (VERSION : GoString) : GoString :=
  goStr "kube-secrets version " ++ VERSION ++ goStr "\n\n"
    ++ goStr "Usage: kube-secrets <options> <command> <file>\n"
    ++ goStr "\nAvailable commands:\n"
    ++ goStr "   create\t\tCreate new secret file\n"
    ++ goStr "   delete\t\tRemove key\n"
    ++ goStr "   help \t\tPrint usage\n"
    ++ goStr "   keys \t\tList all keys in secret file\n"
    ++ goStr "   update\t\tUpdate value of key or create new key\n"
    ++ goStr "   version\t\tPrint version\n\n"
    ++ goStr "Options:\n"
    ++ goStr "   -u   \t\tString to set value with\n"
    ++ goStr "   -U   \t\tFile to set value with\n"

/-- What `flag.Parse` leaves: the flags `-u`, `-U`, `-h`, `-help` and the positional
arguments. -/
structure Flags where
  u : GoString
  U : GoString
  h : Bool
  help : Bool
  args : List GoString

/-- Go `flag.Arg(i)`: the empty string when there is no such argument. -/
def Flags.Arg (f : Flags) (i : Nat) : GoString := f.args.getD i []

/-- Go `func parseArgs() (error, string)`.  `checkError` exits with status 1 on an error. -/
def parseArgs (Y : Yaml) (w : World) (VERSION : GoString) (f : Flags) :
    World × Outcome (error × GoString) :=
  let command := f.Arg 0
  let filename := f.Arg 1
  let key := f.Arg 2
  if f.h ∨ f.help then (w, .ret (none, printUsage VERSION))
  else if f.u ≠ [] ∧ f.U ≠ [] then (w, .ret (none, S_ERROR_PARAMETER_U))
  else if command = goStr "create" then
    if key = [] then (w, .ret (some S_MISSING_PARAMETER_KEY, []))
    else
      match createNewSecrets Y w filename key f.u f.U with
      | (w', .ret none) => (w', .ret (none, S_FILE_CREATED))
      | (w', .ret (some _)) => (w', .exit 1)
      | (w', .exit code) => (w', .exit code)
      | (w', .panic) => (w', .panic)
  else if command = goStr "delete" then
    match deleteSecret Y w filename key with
    | (w', none) => (w', .ret (none, S_KEY_DELETED))
    | (w', some _) => (w', .exit 1)
  else if command = goStr "keys" then
    match listKeys Y w filename with
    | (none, resultString) => (w, .ret (none, resultString))
    | (some _, _) => (w, .exit 1)
  else if command = goStr "help" then (w, .ret (none, printUsage VERSION))
  else if command = goStr "show" then
    if key = [] then (w, .ret (some S_MISSING_PARAMETER_KEY, []))
    else
      match showSecretsFile Y w filename key with
      | (none, keyValue) => (w, .ret (none, keyValue))
      | (some _, _) => (w, .exit 1)
  else if command = goStr "update" then
    match updateSecretsFile Y w filename key f.u f.U with
    | (w', .ret (none, updatedStatus)) => (w', .ret (none, updatedStatus))
    | (w', .ret (some _, _)) => (w', .exit 1)
    | (w', .exit code) => (w', .exit code)
    | (w', .panic) => (w', .panic)
  else if command = goStr "version" then (w, .ret (none, []))
  else (w, .ret (none, printUsage VERSION))

/-! ## A line-oriented YAML codec

An instance of `Yaml` for the block layout that the library emits for `secrets`
when every scalar is plain: top-level `key: value` lines, and the two-space
indented entries of `metadata:` and `data:`.  It is used to run the operations
on concrete files. -/

/-- The lines of a file, split at `\n`. -/
def splitLines : List Byte → List (List Byte)
  | [] => []
  | c :: cs =>
    if c = 10 then [] :: splitLines cs
    else
      match splitLines cs with
      | [] => [[c]]
      | l :: ls => (c :: l) :: ls

/-- Splits `key: value` at the first colon that ends the line or is followed by a space. -/
def splitKV : List Byte → Option (GoString × GoString)
  | [] => none
  | c :: cs =>
    if c = 58 ∧ (cs = [] ∨ cs.head? = some 32) then some ([], cs.drop 1)
    else
      match splitKV cs with
      | none => none
      | some (k, v) => some (c :: k, v)

/-- A scalar as written: the empty string is written `""`. -/
def emitScalar (v : GoString) : GoString := if v = [] then goStr "\"\"" else v

/-- A scalar as read. -/
def readScalar (v : GoString) : GoString := if v = goStr "\"\"" then [] else v

/-- The mapping a line belongs to. -/
inductive Section where
  | top
  | metadata
  | data
  | other
deriving DecidableEq

/-- Decodes one line into the struct. -/
def miniStep (st : Section × secrets) (line : List Byte) : Option (Section × secrets) :=
  let c := st.2
  if line = [] then some st
  else if line.take 2 = goStr "  " then
    match splitKV (line.drop 2) with
    | none => none
    | some (k, v) =>
      match st.1 with
      | .top => none
      | .other => some st
      | .metadata =>
        if k = goStr "name" then
          some (.metadata, { c with Metadata := { c.Metadata with Name := readScalar v } })
        else if k = goStr "namespace" then
          some (.metadata, { c with Metadata := { c.Metadata with Namespace := readScalar v } })
        else some st
      | .data =>
        some (.data, { c with Data := some (AList.insert k (readScalar v) (c.Data.getD ∅)) })
  else
    match splitKV line with
    | none => none
    | some (k, v) =>
      if k = goStr "apiVersion" then some (.top, { c with APIVersion := readScalar v })
      else if k = goStr "kind" then some (.top, { c with Kind := readScalar v })
      else if k = goStr "type" then some (.top, { c with Type_ := readScalar v })
      else if k = goStr "metadata" then some (.metadata, c)
      else if k = goStr "data" then
        if v = goStr "\x7b\x7d" then some (.other, { c with Data := some ∅ }) else some (.data, c)
      else some (.other, c)

/-- Decodes the lines in turn. -/
def miniLoop : List (List Byte) → Section × secrets → Option secrets
  | [], st => some st.2
  | l :: ls, st =>
    match miniStep st l with
    | none => none
    | some st' => miniLoop ls st'

/-- Encodes the struct, the keys of `data` in increasing order. -/
def miniMarshal (s : secrets) : List Byte :=
  goStr "apiVersion: " ++ emitScalar s.APIVersion ++ goStr "\n"
    ++ goStr "kind: " ++ emitScalar s.Kind ++ goStr "\n"
    ++ goStr "type: " ++ emitScalar s.Type_ ++ goStr "\n"
    ++ goStr "metadata:\n"
    ++ goStr "  name: " ++ emitScalar s.Metadata.Name ++ goStr "\n"
    ++ goStr "  namespace: " ++ emitScalar s.Metadata.Namespace ++ goStr "\n"
    ++ (match sortStrings (mapKeys s.Data) with
        | [] => goStr "data: \x7b\x7d\n"
        | keys =>
          goStr "data:\n" ++ keys.foldr
            (fun k out => goStr "  " ++ k ++ goStr ": " ++ emitScalar (mapGet s.Data k)
              ++ goStr "\n" ++ out) [])

/-- The line-oriented codec as an instance of `Yaml`; the unexported field is
carried over from the struct decoded into. -/
def miniYaml : Yaml where
  Marshal := fun s => some (miniMarshal s)
  Unmarshal := fun data c =>
    match miniLoop (splitLines data) (.top, c) with
    | none => none
    | some c' => some { c' with updateValue := c.updateValue }
  unexported := by
    intro data c c' h
    dsimp only at h
    split at h
    · exact absurd h (by simp)
    · cases h
      rfl

/-! ## The codec with merge keys

The same layout, read with two more rules of YAML: a double-quoted key is its
text, and a plain key `<<` in `data` is a merge key, which is an error on a
scalar value.  Keys are written plain. -/

/-- A key as read: a double-quoted key stands for its text. -/
def readKey (k : GoString) : GoString :=
  if 2 ≤ k.length ∧ k.head? = some 34 ∧ k.getLast? = some 34 then (k.drop 1).dropLast else k

/-- Decodes one line into the struct; an entry of `data` under a plain `<<` fails. -/
def mergeStep (st : Section × secrets) (line : List Byte) : Option (Section × secrets) :=
  let c := st.2
  if st.1 = .data ∧ line.take 2 = goStr "  " then
    match splitKV (line.drop 2) with
    | none => none
    | some (k, v) =>
      if k = goStr "<<" then none
      else
        some (.data, { c with Data := some (AList.insert (readKey k) (readScalar v) (c.Data.getD ∅)) })
  else miniStep st line

/-- Decodes the lines in turn. -/
def mergeLoop : List (List Byte) → Section × secrets → Option secrets
  | [], st => some st.2
  | l :: ls, st =>
    match mergeStep st l with
    | none => none
    | some st' => mergeLoop ls st'

/-- The codec with merge keys as an instance of `Yaml`; the unexported field is
carried over from the struct decoded into. -/
def mergeYaml : Yaml where
  Marshal := fun s => some (miniMarshal s)
  Unmarshal := fun data c =>
    match mergeLoop (splitLines data) (.top, c) with
    | none => none
    | some c' => some { c' with updateValue := c.updateValue }
  unexported := by
    intro data c c' h
    dsimp only at h
    split at h
    · exact absurd h (by simp)
    · cases h
      rfl

/-! ## Specification-side definitions -/

/-- The entries of a map, none for the nil map. -/
def mapEntries (m : GoMap) : List (Sigma fun _ : GoString => GoString) :=
  match m with
  | none => []
  | some a => a.entries

/-- The library round-trips the document `d`: it encodes `d`, and decoding those
bytes into a zero struct gives the exported fields of `d` back, the entries of
`data` in any order. -/
def RoundTrips (Y : Yaml) (d : secrets) : Prop :=
  ∃ data d', Y.Marshal d = some data ∧ Y.Unmarshal data secrets.zero = some d' ∧
    d'.APIVersion = d.APIVersion ∧ d'.Kind = d.Kind ∧ d'.Type_ = d.Type_ ∧
    d'.Metadata = d.Metadata ∧ (mapEntries d'.Data).Perm (mapEntries d.Data)

/-- The name as the specification words it: the base name of the file with the
extension of that base name removed. -/
def nameFromSpec (filename : GoString) : GoString :=
  let base := Base filename
  base.take (base.length - (Ext base).length)

/-! ## Test data -/

/-- A file with the keys that `Test_listKeys` expects of `sample.yml`, and the
values that `Test_showSecretsFile` and `Test_updateSecretsFile_update_same_value_string`
expect. -/
def sampleYml : List Byte :=
  goStr "apiVersion: v1\nkind: Secret\ntype: Opaque\nmetadata:\n  name: sample\n  namespace: default\ndata:\n  zzz_data: enp6\n  MYSQL_ROOT_PASSWORD: bXktc3VwZXItc2VjcmV0LXNxdWlycmVsLXBhc3N3b3JkCg==\n  tls.key: dGxz\n  INVALID_BASE64: not-base64*\n  aaa_data: YWFh\n  update_same_value: dGVzdF92YWwxMjM=\n  test_delete: ZGVsZXRl\n"

/-- A file of kind `ConfigMap`, as `configmap.yml`. -/
def configmapYml : List Byte :=
  goStr "apiVersion: v1\nkind: ConfigMap\nmetadata:\n  name: sample\n  namespace: default\ndata:\n  MYSQL_ROOT_PASSWORD: value\n"

/-- A Secret without a `data` field. -/
def nodataYml : List Byte :=
  goStr "apiVersion: v1\nkind: Secret\ntype: Opaque\nmetadata:\n  name: empty\n  namespace: default\n"

/-- The test environment: the files of `/tmp/test_data`, every path writable,
and the emulated editor, which leaves `TEST_DATA\n` in the file. -/
def testWorld : World where
  files := fun p =>
    if p = goStr "/tmp/test_data/sample.yml" then some sampleYml
    else if p = goStr "/tmp/test_data/configmap.yml" then some configmapYml
    else if p = goStr "/tmp/test_data/nodata.yml" then some nodataYml
    else if p = goStr "/tmp/test_data/test-file-data.txt" then some (goStr "test_val123")
    else none
  writable := fun _ => true
  EDITOR := goStr "test_data/editor_emulate.sh"
  lookPath := fun e => if e = goStr "test_data/editor_emulate.sh" then some e else none
  tempFileOk := true
  run := fun _ _ => .done (goStr "TEST_DATA\n")

/-- The test environment with `EDITOR` unset. -/
def noEditorWorld : World := { testWorld with EDITOR := [] }

/-- A Secret whose `data` has the key `<<`, written quoted, and the key `test_delete`. -/
def mergeYml : List Byte :=
  goStr "apiVersion: v1\nkind: Secret\ntype: Opaque\nmetadata:\n  name: merge\n  namespace: default\ndata:\n  \"<<\": bWVyZ2U=\n  test_delete: ZGVsZXRl\n"

/-- The test environment with that file alone. -/
def mergeWorld : World :=
  { testWorld with
    files := fun p => if p = goStr "/tmp/test_data/merge.yml" then some mergeYml else none }

/-! ## Properties -/

/-! ### Base64 round trip -/

theorem decodeMap_encChar : ∀ i : Fin 64, decodeMap (encChar i.val) = some i.val := by
  decide

theorem decodeMap_encChar_lt (i : Nat) (h : i < 64) : decodeMap (encChar i) = some i :=
  decodeMap_encChar ⟨i, h⟩

theorem decodeMap_padChar : decodeMap padChar = none := by decide

theorem quantum_four (a b c : Byte) :
    quantum ((a.val * 65536 + b.val * 256 + c.val) / 262144 % 64)
      ((a.val * 65536 + b.val * 256 + c.val) / 4096 % 64)
      ((a.val * 65536 + b.val * 256 + c.val) / 64 % 64)
      ((a.val * 65536 + b.val * 256 + c.val) % 64) 4 = [a, b, c] := by
  obtain ⟨a, ha⟩ := a
  obtain ⟨b, hb⟩ := b
  obtain ⟨c, hc⟩ := c
  simp only [quantum, Fin.ofNat, List.take, Nat.reduceSub, List.cons.injEq, Fin.mk.injEq,
    and_true]
  refine ⟨?_, ?_, ?_⟩ <;> omega

theorem quantum_three (a b : Byte) :
    quantum ((a.val * 65536 + b.val * 256) / 262144 % 64)
      ((a.val * 65536 + b.val * 256) / 4096 % 64)
      ((a.val * 65536 + b.val * 256) / 64 % 64) 0 3 = [a, b] := by
  obtain ⟨a, ha⟩ := a
  obtain ⟨b, hb⟩ := b
  simp only [quantum, Fin.ofNat, List.take, Nat.reduceSub, List.cons.injEq, Fin.mk.injEq,
    and_true]
  refine ⟨?_, ?_⟩ <;> omega

theorem quantum_two (a : Byte) :
    quantum ((a.val * 65536) / 262144 % 64) ((a.val * 65536) / 4096 % 64) 0 0 2 = [a] := by
  obtain ⟨a, ha⟩ := a
  simp only [quantum, Fin.ofNat, List.take, Nat.reduceSub, List.cons.injEq, Fin.mk.injEq,
    and_true]
  omega

theorem decodeLoop_digit0 (i : Nat) (h : i < 64) (src : List Byte) :
    decodeLoop (encChar i :: src) [] = decodeLoop src [i] := by
  simp [decodeLoop, decodeMap_encChar_lt i h]

theorem decodeLoop_digit1 (i : Nat) (h : i < 64) (src : List Byte) (d0 : Nat) :
    decodeLoop (encChar i :: src) [d0] = decodeLoop src [d0, i] := by
  simp [decodeLoop, decodeMap_encChar_lt i h]

theorem decodeLoop_digit2 (i : Nat) (h : i < 64) (src : List Byte) (d0 d1 : Nat) :
    decodeLoop (encChar i :: src) [d0, d1] = decodeLoop src [d0, d1, i] := by
  simp [decodeLoop, decodeMap_encChar_lt i h]

theorem decodeLoop_digit3 (i : Nat) (h : i < 64) (src : List Byte) (d0 d1 d2 : Nat) :
    decodeLoop (encChar i :: src) [d0, d1, d2] =
      (quantum d0 d1 d2 i 4 ++ (decodeLoop src []).1, (decodeLoop src []).2) := by
  rw [decodeLoop, decodeMap_encChar_lt i h]

theorem decodeLoop_pad2 (d0 d1 : Nat) :
    decodeLoop [padChar, padChar] [d0, d1] = (quantum d0 d1 0 0 2, true) := by
  rw [decodeLoop, decodeMap_padChar]
  simp [padChar, skipNewlines]

theorem decodeLoop_pad3 (d0 d1 d2 : Nat) :
    decodeLoop [padChar] [d0, d1, d2] = (quantum d0 d1 d2 0 3, true) := by
  rw [decodeLoop, decodeMap_padChar]
  simp [padChar, skipNewlines]

/-- Decoding the standard encoding of any byte sequence gives the bytes back, without error. -/
theorem DecodeString_EncodeToString (b : List Byte) :
    DecodeString (EncodeToString b) = (b, true) := by
  unfold DecodeString
  induction b using EncodeToString.induct with
  | case1 a b c rest ih =>
    rw [EncodeToString]
    rw [decodeLoop_digit0 _ (Nat.mod_lt _ (by decide)), decodeLoop_digit1 _ (Nat.mod_lt _ (by decide)),
      decodeLoop_digit2 _ (Nat.mod_lt _ (by decide)), decodeLoop_digit3 _ (Nat.mod_lt _ (by decide)),
      quantum_four, ih]
    rfl
  | case2 a b =>
    rw [EncodeToString]
    rw [decodeLoop_digit0 _ (Nat.mod_lt _ (by decide)), decodeLoop_digit1 _ (Nat.mod_lt _ (by decide)),
      decodeLoop_digit2 _ (Nat.mod_lt _ (by decide)), decodeLoop_pad3, quantum_three]
  | case3 a =>
    rw [EncodeToString]
    rw [decodeLoop_digit0 _ (Nat.mod_lt _ (by decide)), decodeLoop_digit1 _ (Nat.mod_lt _ (by decide)),
      decodeLoop_pad2, quantum_two]
  | case4 => rfl

/-! ### Loading -/

theorem loadSecretsFile_of (Y : Yaml) (w : World) (c s : secrets) (filename : GoString)
    (yamlFile : List Byte) (hread : w.files filename = some yamlFile)
    (hparse : Y.Unmarshal yamlFile c = some s) :
    loadSecretsFile Y w c filename =
      (s, if s.Kind ≠ goStr "Secret" then some S_ERROR_NOT_SECRETS_FILE else none) := by
  simp only [loadSecretsFile, hread, hparse]
  split <;> rfl

theorem loadSecretsFile_ok (Y : Yaml) (w : World) (c : secrets) (filename : GoString)
    (h : (loadSecretsFile Y w c filename).2 = none) :
    ∃ yamlFile, w.files filename = some yamlFile ∧
      Y.Unmarshal yamlFile c = some (loadSecretsFile Y w c filename).1 ∧
      (loadSecretsFile Y w c filename).1.Kind = goStr "Secret" := by
  unfold loadSecretsFile at h ⊢
  cases hread : w.files filename with
  | none => simp [hread] at h
  | some yamlFile =>
    cases hparse : Y.Unmarshal yamlFile c with
    | none => simp [hread, hparse] at h
    | some s =>
      simp only [hread, hparse] at h ⊢
      by_cases hk : s.Kind = goStr "Secret"
      · exact ⟨yamlFile, rfl, by simp [hk, hparse], by simp [hk]⟩
      · simp [hk] at h

theorem loadSecretsFile_updateValue (Y : Yaml) (w : World) (filename : GoString)
    (h : (loadSecretsFile Y w secrets.zero filename).2 = none) :
    (loadSecretsFile Y w secrets.zero filename).1.updateValue = [] := by
  obtain ⟨yamlFile, _, hparse, _⟩ := loadSecretsFile_ok Y w secrets.zero filename h
  exact Y.unexported yamlFile secrets.zero _ hparse

/-- C3: for a readable file that deserialises into a document, loading fails with
"Not a Kubernetes secret" when the kind is not exactly `Secret`, and show and
delete return that same error; loading returns no error when the kind is `Secret`. -/
theorem loadSecretsFile_kind (Y : Yaml) (w : World) (filename : GoString)
    (yamlFile : List Byte) (doc : secrets)
    (hread : w.files filename = some yamlFile)
    (hparse : Y.Unmarshal yamlFile secrets.zero = some doc) :
    (doc.Kind ≠ goStr "Secret" →
      (loadSecretsFile Y w secrets.zero filename).2 = some S_ERROR_NOT_SECRETS_FILE ∧
      ∀ key, showSecretsFile Y w filename key = (some S_ERROR_NOT_SECRETS_FILE, []) ∧
        deleteSecret Y w filename key = (w, some S_ERROR_NOT_SECRETS_FILE)) ∧
    (doc.Kind = goStr "Secret" → (loadSecretsFile Y w secrets.zero filename).2 = none) := by
  have hl := loadSecretsFile_of Y w secrets.zero doc filename yamlFile hread hparse
  constructor
  · intro hk
    rw [if_pos hk] at hl
    refine ⟨by rw [hl], fun key => ⟨?_, ?_⟩⟩
    · simp only [showSecretsFile, hl]
    · simp only [deleteSecret, hl]
  · intro hk
    rw [hl]
    simp [hk]

/-- C3 at `configmap.yml`: the file is readable and parses, its kind is
`ConfigMap`, and load, show and delete give "Not a Kubernetes secret". -/
theorem loadSecretsFile_kind_configmap :
    (loadSecretsFile miniYaml testWorld secrets.zero (goStr "/tmp/test_data/configmap.yml")).2
        = some S_ERROR_NOT_SECRETS_FILE ∧
      ∀ key, showSecretsFile miniYaml testWorld (goStr "/tmp/test_data/configmap.yml") key
          = (some S_ERROR_NOT_SECRETS_FILE, []) ∧
        deleteSecret miniYaml testWorld (goStr "/tmp/test_data/configmap.yml") key
          = (testWorld, some S_ERROR_NOT_SECRETS_FILE) :=
  (loadSecretsFile_kind miniYaml testWorld (goStr "/tmp/test_data/configmap.yml") configmapYml
    (loadSecretsFile miniYaml testWorld secrets.zero (goStr "/tmp/test_data/configmap.yml")).1
    rfl rfl).1 (by decide)

/-! ### The editor -/

theorem TrimSuffix_newline_append (b : List Byte) :
    TrimSuffix (b ++ [10]) (goStr "\n") = b := by
  have h : (goStr "\n" : GoString) = [10] := by decide
  rw [h]
  unfold TrimSuffix
  have hs : List.isSuffixOf [(10 : Byte)] (b ++ [10]) = true := by
    rw [List.isSuffixOf_iff_suffix]
    exact List.suffix_append b [10]
  simp [hs]

theorem TrimSuffix_newline_none (b : List Byte) (h : ∀ b', b ≠ b' ++ [10]) :
    TrimSuffix b (goStr "\n") = b := by
  have h10 : (goStr "\n" : GoString) = [10] := by decide
  rw [h10]
  unfold TrimSuffix
  have hs : List.isSuffixOf [(10 : Byte)] b = false := by
    apply Bool.eq_false_iff.mpr
    intro hsuf
    rw [List.isSuffixOf_iff_suffix] at hsuf
    obtain ⟨t, ht⟩ := hsuf
    exact h t ht.symm
  simp [hs]

/-- C6: when the editor exits successfully and leaves content `b`, `editor`
returns the base64 encoding of `b` without its final newline (if it has one) when
`EDITOR` is exactly `vi` or `vim`, and the base64 encoding of `b` itself for
every other editor name. -/
theorem editor_normalisation (w : World) (openWith : List Byte) (path : GoString)
    (b : List Byte) (hset : w.EDITOR ≠ [])
    (hlook : w.lookPath w.EDITOR = some path) (htmp : w.tempFileOk = true)
    (hrun : w.run path openWith = .done b) :
    ((w.EDITOR = goStr "vi" ∨ w.EDITOR = goStr "vim") →
      (∀ b', b = b' ++ [10] → editor w openWith = .ret (EncodeToString b', none)) ∧
      ((∀ b', b ≠ b' ++ [10]) → editor w openWith = .ret (EncodeToString b, none))) ∧
    (¬ (w.EDITOR = goStr "vi" ∨ w.EDITOR = goStr "vim") →
      editor w openWith = .ret (EncodeToString b, none)) := by
  have hed : editor w openWith = .ret (EncodeToString
      (if w.EDITOR = goStr "vi" ∨ w.EDITOR = goStr "vim" then TrimSuffix b (goStr "\n") else b),
      none) := by
    simp only [editor, hset, hlook, htmp, hrun, if_false]
    simp
  refine ⟨fun hvi => ⟨?_, ?_⟩, fun hvi => ?_⟩
  · intro b' hb
    rw [hed, if_pos hvi, hb, TrimSuffix_newline_append]
  · intro hb
    rw [hed, if_pos hvi, TrimSuffix_newline_none b hb]
  · rw [hed, if_neg hvi]

/-- C6 at the emulated editor of `Test_editor`: its name is not `vi` or `vim`,
so the content `TEST_DATA\n` keeps its newline and gives `VEVTVF9EQVRBCg==`. -/
theorem editor_normalisation_emulated :
    editor testWorld [] = .ret (goStr "VEVTVF9EQVRBCg==", none) :=
  (editor_normalisation testWorld [] (goStr "test_data/editor_emulate.sh")
    (goStr "TEST_DATA\n") (by decide) rfl rfl rfl).2 (by decide)

/-! ### The order on strings and the listing -/

theorem strLe_total (a b : GoString) : strLess b a = false ∨ strLess a b = false := by
  induction a generalizing b with
  | nil => cases b <;> simp [strLess]
  | cons x xs ih =>
    cases b with
    | nil => simp [strLess]
    | cons y ys =>
      simp only [strLess]
      rcases lt_trichotomy x y with h | h | h
      · simp [h, not_lt_of_lt h]
      · subst h
        simpa using ih ys
      · simp [h, not_lt_of_lt h]

theorem strLe_trans (a b c : GoString) (hab : strLess b a = false)
    (hbc : strLess c b = false) : strLess c a = false := by
  induction a generalizing b c with
  | nil => cases c <;> simp [strLess]
  | cons x xs ih =>
    cases b with
    | nil => simp [strLess] at hab
    | cons y ys =>
      cases c with
      | nil => simp [strLess] at hbc
      | cons z zs =>
        simp only [strLess] at hab hbc ⊢
        rcases lt_trichotomy x y with h | h | h
        · rcases lt_trichotomy y z with h' | h' | h'
          · simp [lt_trans h h', not_lt_of_lt (lt_trans h h')]
          · subst h'
            simp [h, not_lt_of_lt h]
          · simp [h'] at hbc
        · subst h
          rcases lt_trichotomy x z with h' | h' | h'
          · simp [h', not_lt_of_lt h']
          · subst h'
            simp only [lt_self_iff_false, if_false] at hab hbc ⊢
            exact ih ys zs hab hbc
          · simp [h'] at hbc
        · simp [h] at hab

theorem strLe_antisymm (a b : GoString) (hab : strLess b a = false)
    (hba : strLess a b = false) : a = b := by
  induction a generalizing b with
  | nil =>
    cases b with
    | nil => rfl
    | cons y ys => simp [strLess] at hba
  | cons x xs ih =>
    cases b with
    | nil => simp [strLess] at hab
    | cons y ys =>
      simp only [strLess] at hab hba
      rcases lt_trichotomy x y with h | h | h
      · simp [h] at hba
      · subst h
        simp only [lt_self_iff_false, if_false] at hab hba
        rw [ih ys hab hba]
      · simp [h] at hab

theorem sortStrings_sorted (keys : List GoString) : (sortStrings keys).Sorted strLe := by
  haveI : IsTotal GoString strLe := ⟨fun a b => strLe_total a b⟩
  haveI : IsTrans GoString strLe := ⟨fun a b c hab hbc => strLe_trans a b c hab hbc⟩
  exact List.sorted_insertionSort strLe keys

theorem sortStrings_perm (keys : List GoString) : (sortStrings keys).Perm keys :=
  List.perm_insertionSort strLe keys

theorem sortStrings_strict (keys : List GoString) (hnd : keys.Nodup) :
    (sortStrings keys).Pairwise (fun a b => strLess a b = true) := by
  have hs : (sortStrings keys).Pairwise strLe := sortStrings_sorted keys
  have hn : (sortStrings keys).Pairwise (fun a b => a ≠ b) :=
    (sortStrings_perm keys).nodup_iff.mpr hnd
  refine (hs.and hn).imp ?_
  intro a b h
  obtain ⟨hle, hne⟩ := h
  cases hlt : strLess a b with
  | true => rfl
  | false => exact absurd (strLe_antisymm a b hle hlt) hne

theorem sortStrings_congr (l₁ l₂ : List GoString) (h : l₁.Perm l₂) :
    sortStrings l₁ = sortStrings l₂ := by
  haveI : IsAntisymm GoString strLe := ⟨fun a b hab hba => strLe_antisymm a b hab hba⟩
  exact List.eq_of_perm_of_sorted
    (((sortStrings_perm l₁).trans h).trans (sortStrings_perm l₂).symm)
    (sortStrings_sorted l₁) (sortStrings_sorted l₂)

theorem mapKeys_nodup (m : GoMap) : (mapKeys m).Nodup := by
  cases m with
  | none => exact List.nodup_nil
  | some a => exact a.keys_nodup

theorem foldl_buffer (f : GoString → GoString) (keys : List GoString) (buffer : GoString) :
    keys.foldl (fun buffer key => buffer ++ f key) buffer = buffer ++ (keys.map f).flatten := by
  induction keys generalizing buffer with
  | nil => simp
  | cons k ks ih => simp [ih]

/-- C2: for a file that loads as a Secret, `listKeys` returns no error and the
concatenation of `key ++ "\n"` over a list `keys` that is strictly increasing in
the byte-wise lexicographic order and is a permutation of the keys of `data`
(each key once, nothing else); any iteration order of the map gives that list. -/
theorem listKeys_sorted (Y : Yaml) (w : World) (filename : GoString)
    (hload : (loadSecretsFile Y w secrets.zero filename).2 = none) :
    ∃ keys : List GoString,
      listKeys Y w filename = (none, (keys.map (fun key => key ++ goStr "\n")).flatten) ∧
      keys.Pairwise (fun a b => strLess a b = true) ∧
      keys.Perm (mapKeys (loadSecretsFile Y w secrets.zero filename).1.Data) ∧
      ∀ order : List GoString,
        order.Perm (mapKeys (loadSecretsFile Y w secrets.zero filename).1.Data) →
        sortStrings order = keys := by
  refine ⟨sortStrings (mapKeys (loadSecretsFile Y w secrets.zero filename).1.Data),
    ?_, sortStrings_strict _ (mapKeys_nodup _), sortStrings_perm _,
    fun order h => sortStrings_congr _ _ h⟩
  unfold listKeys
  generalize hl : loadSecretsFile Y w secrets.zero filename = r at hload
  obtain ⟨s, err⟩ := r
  simp only at hload
  subst hload
  simp only [foldl_buffer, List.nil_append]

/-- C2 at `sample.yml`: the file loads, and the keys, stored in another order, are
listed as in `Test_listKeys`. -/
theorem listKeys_sorted_sample :
    (loadSecretsFile miniYaml testWorld secrets.zero (goStr "/tmp/test_data/sample.yml")).2 = none ∧
    (∃ keys : List GoString,
      listKeys miniYaml testWorld (goStr "/tmp/test_data/sample.yml")
        = (none, (keys.map (fun key => key ++ goStr "\n")).flatten) ∧
      keys.Pairwise (fun a b => strLess a b = true) ∧
      keys.Perm (mapKeys
        (loadSecretsFile miniYaml testWorld secrets.zero (goStr "/tmp/test_data/sample.yml")).1.Data) ∧
      ∀ order : List GoString,
        order.Perm (mapKeys
          (loadSecretsFile miniYaml testWorld secrets.zero (goStr "/tmp/test_data/sample.yml")).1.Data) →
        sortStrings order = keys) ∧
    listKeys miniYaml testWorld (goStr "/tmp/test_data/sample.yml")
      = (none, goStr "INVALID_BASE64\nMYSQL_ROOT_PASSWORD\naaa_data\ntest_delete\ntls.key\nupdate_same_value\nzzz_data\n") :=
  ⟨by decide, listKeys_sorted miniYaml testWorld (goStr "/tmp/test_data/sample.yml") (by decide),
    by decide⟩

/-! ### Writing and reloading -/

theorem defaultNamespace_Kind (s : secrets) : (defaultNamespace s).Kind = s.Kind := by
  unfold defaultNamespace
  split <;> rfl

theorem defaultNamespace_Data (s : secrets) : (defaultNamespace s).Data = s.Data := by
  unfold defaultNamespace
  split <;> rfl

theorem lookup_congr (m' m : GoMap) (key : GoString)
    (h : (mapEntries m').Perm (mapEntries m)) :
    m'.bind (fun a => a.lookup key) = m.bind (fun a => a.lookup key) := by
  have hnil : ∀ a : AList (fun _ : GoString => GoString), a.entries = [] →
      a.lookup key = none := by
    intro a ha
    rw [AList.lookup_eq_none, AList.mem_keys, AList.keys, ha]
    simp
  cases m' with
  | none =>
    cases m with
    | none => rfl
    | some a => exact (hnil a (List.Perm.nil_eq h).symm).symm
  | some a' =>
    cases m with
    | none => exact hnil a' (List.Perm.eq_nil h)
    | some a => exact AList.perm_lookup h

theorem mapGet_congr (m' m : GoMap) (key : GoString)
    (h : (mapEntries m').Perm (mapEntries m)) : mapGet m' key = mapGet m key := by
  unfold mapGet
  rw [lookup_congr m' m key h]

theorem mapHas_congr (m' m : GoMap) (key : GoString)
    (h : (mapEntries m').Perm (mapEntries m)) : mapHas m' key = mapHas m key := by
  unfold mapHas
  rw [lookup_congr m' m key h]

theorem load_after_write (Y : Yaml) (w : World) (s : secrets) (filename : GoString)
    (hw : w.writable filename = true) (hrt : RoundTrips Y (defaultNamespace s))
    (hk : s.Kind = goStr "Secret") :
    ∃ d', loadSecretsFile Y (writeSecrets Y w s filename).1 secrets.zero filename = (d', none) ∧
      ∀ key, mapGet d'.Data key = mapGet s.Data key ∧ mapHas d'.Data key = mapHas s.Data key := by
  obtain ⟨data, d', hm, hu, _, hkind, _, _, hperm⟩ := hrt
  have hfile : (writeSecrets Y w s filename).1.files filename = some data := by
    simp [writeSecrets, WriteFile, hw, hm]
  refine ⟨d', ?_, fun key => ?_⟩
  · rw [loadSecretsFile_of Y _ secrets.zero _ filename data hfile hu]
    simp [hkind, defaultNamespace_Kind, hk]
  · rw [defaultNamespace_Data] at hperm
    exact ⟨mapGet_congr _ _ key hperm, mapHas_congr _ _ key hperm⟩

theorem mapHas_mapDelete (m : GoMap) (key : GoString) : mapHas (mapDelete m key) key = false := by
  cases m with
  | none => rfl
  | some a => simp [mapHas, mapDelete, AList.lookup_erase]

theorem mapGet_insert (a : AList (fun _ : GoString => GoString)) (key value : GoString) :
    mapGet (some (a.insert key value)) key = value := by
  simp [mapGet, AList.lookup_insert]

theorem mapHas_insert (a : AList (fun _ : GoString => GoString)) (key value : GoString) :
    mapHas (some (a.insert key value)) key = true := by
  simp [mapHas, AList.lookup_insert]

theorem EncodeToString_ne_nil (b : List Byte) (h : b ≠ []) : EncodeToString b ≠ [] := by
  match b, h with
  | [_], _ => simp [EncodeToString]
  | [_, _], _ => simp [EncodeToString]
  | _ :: _ :: _ :: _, _ => simp [EncodeToString]

/-- C1: after `createNewSecrets(path, key, value, "")` with a non-empty key and
value, on a path where the write succeeds and with a YAML library that
round-trips the written document, create returns no error, `showSecretsFile`
returns no error and exactly `value`, and the reloaded `data[key]` is the
standard base64 encoding of `value`. -/
theorem create_then_show (Y : Yaml) (w : World) (filename key value : GoString)
    (hkey : key ≠ []) (hvalue : value ≠ []) (hw : w.writable filename = true)
    (hyaml : RoundTrips Y
      { APIVersion := goStr "v1", Kind := goStr "Secret", Type_ := goStr "Opaque",
        Metadata := { Name := Base (filename.take (filename.length - (Ext filename).length)),
                      Namespace := goStr "default" },
        Data := some (AList.insert key (EncodeToString value) ∅),
        updateValue := value }) :
    (createNewSecrets Y w filename key value []).2 = .ret none ∧
    showSecretsFile Y (createNewSecrets Y w filename key value []).1 filename key
      = (none, value) ∧
    mapGet (loadSecretsFile Y (createNewSecrets Y w filename key value []).1
      secrets.zero filename).1.Data key = EncodeToString value := by
  have hc : createNewSecrets Y w filename key value [] =
      ((writeSecrets Y w
        { APIVersion := goStr "v1", Kind := goStr "Secret", Type_ := goStr "Opaque",
          Metadata := { Name := Base (filename.take (filename.length - (Ext filename).length)),
                        Namespace := [] },
          Data := some (AList.insert key (EncodeToString value) ∅),
          updateValue := value } filename).1, .ret none) := by
    simp [createNewSecrets, checkForUpdateValue, hvalue, secrets.zero]
  have hl := load_after_write Y w
    { APIVersion := goStr "v1", Kind := goStr "Secret", Type_ := goStr "Opaque",
      Metadata := { Name := Base (filename.take (filename.length - (Ext filename).length)),
                    Namespace := [] },
      Data := some (AList.insert key (EncodeToString value) ∅),
      updateValue := value } filename hw hyaml rfl
  obtain ⟨d', hl, hd⟩ := hl
  rw [hc]
  refine ⟨rfl, ?_, ?_⟩
  · simp only [showSecretsFile, hl, validateKey, hasKey, hkey, if_false, hd,
      mapHas_insert, mapGet_insert, DecodeString_EncodeToString]
    simp
  · simp only [hl, hd, mapGet_insert]

/-- C1 at `/tmp/test.yml`, key `PASS`, value `secret1`: show gives `secret1` back
and the persisted `data["PASS"]` is `c2VjcmV0MQ==`. -/
theorem create_then_show_test :
    (createNewSecrets miniYaml testWorld (goStr "/tmp/test.yml") (goStr "PASS")
      (goStr "secret1") []).2 = .ret none ∧
    showSecretsFile miniYaml
      (createNewSecrets miniYaml testWorld (goStr "/tmp/test.yml") (goStr "PASS")
        (goStr "secret1") []).1 (goStr "/tmp/test.yml") (goStr "PASS")
      = (none, goStr "secret1") ∧
    mapGet (loadSecretsFile miniYaml
      (createNewSecrets miniYaml testWorld (goStr "/tmp/test.yml") (goStr "PASS")
        (goStr "secret1") []).1 secrets.zero (goStr "/tmp/test.yml")).1.Data (goStr "PASS")
      = goStr "c2VjcmV0MQ==" :=
  create_then_show miniYaml testWorld (goStr "/tmp/test.yml") (goStr "PASS") (goStr "secret1")
    (by decide) (by decide) rfl ⟨_, _, rfl, rfl, rfl, rfl, rfl, rfl, List.Perm.refl _⟩

/-- C5, the claim fails: the file loads as a Secret with the keys `<<` and
`test_delete`, deleting `test_delete` returns no error and the write succeeds,
but the rewritten file has `<<` as a plain key, so the following show fails with
"Failed to parse yml" and not with "Key not found". -/
theorem delete_then_show_unparsable :
    (loadSecretsFile mergeYaml mergeWorld secrets.zero (goStr "/tmp/test_data/merge.yml")).2
      = none ∧
    mapKeys (loadSecretsFile mergeYaml mergeWorld secrets.zero
      (goStr "/tmp/test_data/merge.yml")).1.Data = [goStr "test_delete", goStr "<<"] ∧
    (deleteSecret mergeYaml mergeWorld (goStr "/tmp/test_data/merge.yml")
      (goStr "test_delete")).2 = none ∧
    mergeWorld.writable (goStr "/tmp/test_data/merge.yml") = true ∧
    (deleteSecret mergeYaml mergeWorld (goStr "/tmp/test_data/merge.yml")
      (goStr "test_delete")).1.files (goStr "/tmp/test_data/merge.yml")
      = some (goStr "apiVersion: v1\nkind: Secret\ntype: Opaque\nmetadata:\n  name: merge\n  namespace: default\ndata:\n  <<: bWVyZ2U=\n") ∧
    showSecretsFile mergeYaml
      (deleteSecret mergeYaml mergeWorld (goStr "/tmp/test_data/merge.yml")
        (goStr "test_delete")).1 (goStr "/tmp/test_data/merge.yml") (goStr "test_delete")
      = (some S_ERROR_FAILED_TO_PARSE, []) ∧
    showSecretsFile mergeYaml
      (deleteSecret mergeYaml mergeWorld (goStr "/tmp/test_data/merge.yml")
        (goStr "test_delete")).1 (goStr "/tmp/test_data/merge.yml") (goStr "test_delete")
      ≠ (some S_KEY_NOT_FOUND, []) := by
  refine ⟨by decide, by decide, by decide, rfl, by decide, by decide, by decide⟩

/-- C5 as amended: when `deleteSecret(path, key)` returns no error, on a path
where the write succeeds and with a YAML library that round-trips the rewritten
document, a following `showSecretsFile(path, key)` returns "Key not found" and
the empty string. -/
theorem delete_then_show (Y : Yaml) (w : World) (filename key : GoString)
    (hdel : (deleteSecret Y w filename key).2 = none)
    (hw : w.writable filename = true)
    (hyaml : RoundTrips Y (defaultNamespace
      { (loadSecretsFile Y w secrets.zero filename).1 with
        Data := mapDelete (loadSecretsFile Y w secrets.zero filename).1.Data key })) :
    showSecretsFile Y (deleteSecret Y w filename key).1 filename key
      = (some S_KEY_NOT_FOUND, []) := by
  have hload : (loadSecretsFile Y w secrets.zero filename).2 = none := by
    unfold deleteSecret at hdel
    split at hdel
    · simp at hdel
    · rename_i s heq
      rw [heq]
  obtain ⟨_, _, _, hkind⟩ := loadSecretsFile_ok Y w secrets.zero filename hload
  generalize hl : loadSecretsFile Y w secrets.zero filename = r at hdel hload hyaml hkind
  obtain ⟨s, err⟩ := r
  simp only at hload hyaml hkind
  subst hload
  simp only [deleteSecret, hl] at hdel ⊢
  cases hv : validateKey s key with
  | some e => simp [hv] at hdel
  | none =>
    simp only [hv]
    have hkey : key ≠ [] := by
      intro h
      simp [validateKey, h] at hv
    obtain ⟨d', hl2, hd⟩ :=
      load_after_write Y w { s with Data := mapDelete s.Data key } filename hw hyaml hkind
    simp only [showSecretsFile, hl2, validateKey, hasKey, hkey, if_false, hd, mapHas_mapDelete]
    simp

/-- C5 as amended, at `sample.yml`, key `test_delete`: delete succeeds and show
then fails with "Key not found". -/
theorem delete_then_show_sample :
    (deleteSecret miniYaml testWorld (goStr "/tmp/test_data/sample.yml")
      (goStr "test_delete")).2 = none ∧
    showSecretsFile miniYaml
      (deleteSecret miniYaml testWorld (goStr "/tmp/test_data/sample.yml")
        (goStr "test_delete")).1 (goStr "/tmp/test_data/sample.yml") (goStr "test_delete")
      = (some S_KEY_NOT_FOUND, []) :=
  ⟨by decide,
    delete_then_show miniYaml testWorld (goStr "/tmp/test_data/sample.yml") (goStr "test_delete")
      (by decide) rfl ⟨_, _, rfl, rfl, rfl, rfl, rfl, rfl, by decide⟩⟩

/-! ### Update -/

/-- C4: for a file that loads as a Secret, when the candidate value (the base64
encoding of a non-empty inline string, or of the non-empty content of the inline
file, or the value the editor round trip returns) equals `data[key]`,
`updateSecretsFile` returns no error with status "No updates" and the
file system is left as it was. -/
theorem update_same_value (Y : Yaml) (w : World)
    (filename key updateString updateFile : GoString)
    (hload : (loadSecretsFile Y w secrets.zero filename).2 = none)
    (hsame :
      (updateString ≠ [] ∧
        EncodeToString updateString
          = mapGet (loadSecretsFile Y w secrets.zero filename).1.Data key) ∨
      (updateString = [] ∧ updateFile ≠ [] ∧ ∃ data, w.files updateFile = some data ∧
        data ≠ [] ∧
        EncodeToString data = mapGet (loadSecretsFile Y w secrets.zero filename).1.Data key) ∨
      (updateString = [] ∧ updateFile = [] ∧
        editor w (DecodeString
            (mapGet (loadSecretsFile Y w secrets.zero filename).1.Data key)).1
          = .ret (mapGet (loadSecretsFile Y w secrets.zero filename).1.Data key, none))) :
    updateSecretsFile Y w filename key updateString updateFile
      = (w, .ret (none, S_NO_UPDATES)) := by
  have hupd := loadSecretsFile_updateValue Y w filename hload
  generalize hl : loadSecretsFile Y w secrets.zero filename = r at hload hsame hupd
  obtain ⟨s, err⟩ := r
  simp only at hload hsame hupd
  subst hload
  simp only [updateSecretsFile, hl]
  rcases hsame with ⟨hus, heq⟩ | ⟨hus, huf, data, hread, hdata, heq⟩ | ⟨hus, huf, hed⟩
  · simp [checkForUpdateValue, hus, heq]
  · simp [checkForUpdateValue, hus, huf, hread, hdata, heq]
  · simp [checkForUpdateValue, hus, huf, hupd, hed]

/-- C4 at `sample.yml`, key `update_same_value`, inline value `test_val123`:
the status is "No updates" and nothing is written. -/
theorem update_same_value_sample :
    updateSecretsFile miniYaml testWorld (goStr "/tmp/test_data/sample.yml")
      (goStr "update_same_value") (goStr "test_val123") []
      = (testWorld, .ret (none, S_NO_UPDATES)) :=
  update_same_value miniYaml testWorld (goStr "/tmp/test_data/sample.yml")
    (goStr "update_same_value") (goStr "test_val123") [] (by decide)
    (Or.inl ⟨by decide, by decide⟩)

/-- C8, the claim fails: with `EDITOR` unset, updating `missing_editor_key` of
`sample.yml` without an inline value fails with "Failed to launch editor", which
is not "Missing EDITOR environment variable". -/
theorem update_missing_editor_message :
    (loadSecretsFile miniYaml noEditorWorld secrets.zero
      (goStr "/tmp/test_data/sample.yml")).2 = none ∧
    noEditorWorld.EDITOR = [] ∧
    (updateSecretsFile miniYaml noEditorWorld (goStr "/tmp/test_data/sample.yml")
      (goStr "missing_editor_key") [] []).2 = .ret (some S_ERROR_OPENING_EDITOR, []) ∧
    (updateSecretsFile miniYaml noEditorWorld (goStr "/tmp/test_data/sample.yml")
      (goStr "missing_editor_key") [] []).2 ≠ .ret (some S_MISSING_EDITOR_VAR, []) := by
  refine ⟨by decide, rfl, by decide, by decide⟩

/-- C8 as amended: for a file that loads as a Secret, `updateSecretsFile(path,
key, "", "")` with `EDITOR` unset or empty fails with "Failed to launch editor"
and leaves the file system as it was. -/
theorem update_missing_editor (Y : Yaml) (w : World) (filename key : GoString)
    (hload : (loadSecretsFile Y w secrets.zero filename).2 = none)
    (hed : w.EDITOR = []) :
    updateSecretsFile Y w filename key [] [] = (w, .ret (some S_ERROR_OPENING_EDITOR, [])) := by
  have hupd := loadSecretsFile_updateValue Y w filename hload
  generalize hl : loadSecretsFile Y w secrets.zero filename = r at hload hupd
  obtain ⟨s, err⟩ := r
  simp only at hload hupd
  subst hload
  simp [updateSecretsFile, hl, checkForUpdateValue, hupd, editor, hed]

/-- C8 as amended, at `sample.yml` and key `missing_editor_key`. -/
theorem update_missing_editor_sample :
    updateSecretsFile miniYaml noEditorWorld (goStr "/tmp/test_data/sample.yml")
      (goStr "missing_editor_key") [] []
      = (noEditorWorld, .ret (some S_ERROR_OPENING_EDITOR, [])) :=
  update_missing_editor miniYaml noEditorWorld (goStr "/tmp/test_data/sample.yml")
    (goStr "missing_editor_key") (by decide) rfl

/-- C9, the failing case: when the loaded document has no `data` mapping (the
map is nil), `updateSecretsFile` with a non-empty inline value panics on the
assignment `s.Data[key] = newValue`, and nothing is written. -/
theorem update_nil_map_panics (Y : Yaml) (w : World) (filename key value : GoString)
    (hload : (loadSecretsFile Y w secrets.zero filename).2 = none)
    (hnil : (loadSecretsFile Y w secrets.zero filename).1.Data = none)
    (hvalue : value ≠ []) :
    updateSecretsFile Y w filename key value [] = (w, .panic) := by
  generalize hl : loadSecretsFile Y w secrets.zero filename = r at hload hnil
  obtain ⟨s, err⟩ := r
  simp only at hload hnil
  subst hload
  have hne := EncodeToString_ne_nil value hvalue
  simp [updateSecretsFile, hl, checkForUpdateValue, hvalue, hnil, mapGet, mapSet, hne]

/-- C9 at a Secret without a `data` field, key `newkey`, value `newvalue`: the
file loads, and the update panics. -/
theorem update_nil_map_panics_nodata :
    (loadSecretsFile miniYaml testWorld secrets.zero (goStr "/tmp/test_data/nodata.yml")).2
      = none ∧
    updateSecretsFile miniYaml testWorld (goStr "/tmp/test_data/nodata.yml") (goStr "newkey")
      (goStr "newvalue") [] = (testWorld, .panic) :=
  ⟨by decide,
    update_nil_map_panics miniYaml testWorld (goStr "/tmp/test_data/nodata.yml") (goStr "newkey")
      (goStr "newvalue") (by decide) rfl (by decide)⟩

/-- The part of C9 that holds: when the loaded document has a `data` mapping,
an inline value whose encoding differs from `data[key]` is stored, the status is
"File updated", and the reloaded `data[key]` is the base64 encoding of the value. -/
theorem update_stores (Y : Yaml) (w : World) (filename key value : GoString)
    (a : AList (fun _ : GoString => GoString))
    (hload : (loadSecretsFile Y w secrets.zero filename).2 = none)
    (hdata : (loadSecretsFile Y w secrets.zero filename).1.Data = some a)
    (hvalue : value ≠ [])
    (hdiff : EncodeToString value ≠ mapGet (some a) key)
    (hw : w.writable filename = true)
    (hyaml : RoundTrips Y (defaultNamespace
      { (loadSecretsFile Y w secrets.zero filename).1 with
        Data := some (a.insert key (EncodeToString value)), updateValue := value })) :
    (updateSecretsFile Y w filename key value []).2 = .ret (none, S_FILE_UPDATED) ∧
    mapGet (loadSecretsFile Y (updateSecretsFile Y w filename key value []).1
      secrets.zero filename).1.Data key = EncodeToString value := by
  obtain ⟨_, _, _, hkind⟩ := loadSecretsFile_ok Y w secrets.zero filename hload
  generalize hl : loadSecretsFile Y w secrets.zero filename = r at hload hdata hyaml hkind
  obtain ⟨s, err⟩ := r
  simp only at hload hdata hyaml hkind
  subst hload
  obtain ⟨d', hl2, hd⟩ := load_after_write Y w
    { s with Data := some (a.insert key (EncodeToString value)), updateValue := value }
    filename hw hyaml hkind
  have hu : updateSecretsFile Y w filename key value [] =
      ((writeSecrets Y w
        { s with Data := some (a.insert key (EncodeToString value)), updateValue := value }
        filename).1, .ret (none, S_FILE_UPDATED)) := by
    simp [updateSecretsFile, hl, checkForUpdateValue, hvalue, hdata, mapSet, hdiff]
  rw [hu]
  refine ⟨rfl, ?_⟩
  simp only [hl2, hd, mapGet_insert]

/-- The part of C9 that holds, at `sample.yml`, key `newkey`, value `newvalue`, as in
`Test_updateSecretsFile_update_new_key`. -/
theorem update_stores_sample :
    (updateSecretsFile miniYaml testWorld (goStr "/tmp/test_data/sample.yml") (goStr "newkey")
      (goStr "newvalue") []).2 = .ret (none, S_FILE_UPDATED) ∧
    mapGet (loadSecretsFile miniYaml
      (updateSecretsFile miniYaml testWorld (goStr "/tmp/test_data/sample.yml") (goStr "newkey")
        (goStr "newvalue") []).1 secrets.zero (goStr "/tmp/test_data/sample.yml")).1.Data
      (goStr "newkey") = goStr "bmV3dmFsdWU=" :=
  update_stores miniYaml testWorld (goStr "/tmp/test_data/sample.yml") (goStr "newkey")
    (goStr "newvalue") _ (by decide) rfl (by decide) (by decide) rfl
    ⟨_, _, rfl, rfl, rfl, rfl, rfl, rfl, by decide⟩

/-! ### Conflicting update sources -/

/-- C7, the claim fails: given both an inline string and an inline file,
`createNewSecrets` returns no error and writes the file, and
`updateSecretsFile` returns no error with status "File updated"; neither
fails with "Can not use -u and -U together". -/
theorem both_sources_accepted :
    (createNewSecrets miniYaml testWorld (goStr "/tmp/test.yml") (goStr "PASS")
      (goStr "secret1") (goStr "/tmp/test_data/test-file-data.txt")).2 = .ret none ∧
    testWorld.files (goStr "/tmp/test.yml") = none ∧
    (createNewSecrets miniYaml testWorld (goStr "/tmp/test.yml") (goStr "PASS")
      (goStr "secret1") (goStr "/tmp/test_data/test-file-data.txt")).1.files (goStr "/tmp/test.yml")
      = some (goStr "apiVersion: v1\nkind: Secret\ntype: Opaque\nmetadata:\n  name: test\n  namespace: default\ndata:\n  PASS: c2VjcmV0MQ==\n") ∧
    (updateSecretsFile miniYaml testWorld (goStr "/tmp/test_data/sample.yml") (goStr "newkey")
      (goStr "newvalue") (goStr "/tmp/test_data/test-file-data.txt")).2
      = .ret (none, S_FILE_UPDATED) := by
  refine ⟨by decide, rfl, by decide, by decide⟩

/-- C7 as amended: when `-u` and `-U` are both non-empty and no help flag is
given, `parseArgs` returns the text "Can not use -u and -U together" without
running any operation, so the file system is left as it was;
`createNewSecrets` and `updateSecretsFile` themselves take the inline string and
ignore the file. -/
theorem conflicting_sources (Y : Yaml) (w : World) (VERSION : GoString) (f : Flags)
    (filename key : GoString)
    (hh : f.h = false) (hhelp : f.help = false) (hu : f.u ≠ []) (hU : f.U ≠ []) :
    ((parseArgs Y w VERSION f).1 = w ∧
      ∃ err, (parseArgs Y w VERSION f).2 = .ret (err, S_ERROR_PARAMETER_U)) ∧
    createNewSecrets Y w filename key f.u f.U = createNewSecrets Y w filename key f.u [] ∧
    updateSecretsFile Y w filename key f.u f.U = updateSecretsFile Y w filename key f.u [] := by
  refine ⟨?_, ?_, ?_⟩
  · have hp : parseArgs Y w VERSION f = (w, .ret (none, S_ERROR_PARAMETER_U)) := by
      simp [parseArgs, hh, hhelp, hu, hU]
    rw [hp]
    exact ⟨rfl, none, rfl⟩
  · simp [createNewSecrets, checkForUpdateValue, hu]
  · simp [updateSecretsFile, checkForUpdateValue, hu]

/-- C7 as amended, at `-u secret1 -U /tmp/test_data/test-file-data.txt create /tmp/test.yml PASS`. -/
theorem conflicting_sources_create :
    ((parseArgs miniYaml testWorld (goStr "1.0")
        { u := goStr "secret1", U := goStr "/tmp/test_data/test-file-data.txt", h := false,
          help := false, args := [goStr "create", goStr "/tmp/test.yml", goStr "PASS"] }).1
        = testWorld ∧
      ∃ err, (parseArgs miniYaml testWorld (goStr "1.0")
        { u := goStr "secret1", U := goStr "/tmp/test_data/test-file-data.txt", h := false,
          help := false, args := [goStr "create", goStr "/tmp/test.yml", goStr "PASS"] }).2
        = .ret (err, S_ERROR_PARAMETER_U)) ∧
    createNewSecrets miniYaml testWorld (goStr "/tmp/test.yml") (goStr "PASS")
        (goStr "secret1") (goStr "/tmp/test_data/test-file-data.txt")
      = createNewSecrets miniYaml testWorld (goStr "/tmp/test.yml") (goStr "PASS")
        (goStr "secret1") [] ∧
    updateSecretsFile miniYaml testWorld (goStr "/tmp/test.yml") (goStr "PASS")
        (goStr "secret1") (goStr "/tmp/test_data/test-file-data.txt")
      = updateSecretsFile miniYaml testWorld (goStr "/tmp/test.yml") (goStr "PASS")
        (goStr "secret1") [] :=
  conflicting_sources miniYaml testWorld (goStr "1.0")
    { u := goStr "secret1", U := goStr "/tmp/test_data/test-file-data.txt", h := false,
      help := false, args := [goStr "create", goStr "/tmp/test.yml", goStr "PASS"] }
    (goStr "/tmp/test.yml") (goStr "PASS") rfl rfl (by decide) (by decide)

/-! ### The name of a created document -/

/-- C10, the failing case: for the file `/tmp/.hidden` the created document is
named `tmp`, the parent directory, while the base name `.hidden` without its
extension `.hidden` is the empty string. -/
theorem create_name_hidden :
    (createNewSecrets miniYaml testWorld (goStr "/tmp/.hidden") (goStr "PASS")
      (goStr "secret1") []).2 = .ret none ∧
    (loadSecretsFile miniYaml
      (createNewSecrets miniYaml testWorld (goStr "/tmp/.hidden") (goStr "PASS")
        (goStr "secret1") []).1 secrets.zero (goStr "/tmp/.hidden")).1.Metadata.Name
      = goStr "tmp" ∧
    Base (goStr "/tmp/.hidden") = goStr ".hidden" ∧
    Ext (goStr ".hidden") = goStr ".hidden" ∧
    nameFromSpec (goStr "/tmp/.hidden") = [] := by
  refine ⟨by decide, by decide, by decide, by decide, by decide⟩

/-- The example of the comment in `createNewSecrets`: `/tmp/test.yml` becomes `test`. -/
theorem create_name_test :
    (loadSecretsFile miniYaml
      (createNewSecrets miniYaml testWorld (goStr "/tmp/test.yml") (goStr "PASS")
        (goStr "secret1") []).1 secrets.zero (goStr "/tmp/test.yml")).1.Metadata.Name
      = goStr "test" := by
  decide

theorem extLoop_dot (l rest acc : List Byte) (h : ∀ c ∈ l, c ≠ 47 ∧ c ≠ 46) :
    extLoop (l ++ 46 :: rest) acc = 46 :: (l.reverse ++ acc) := by
  induction l generalizing acc with
  | nil =>
    have h1 : ¬ ((46 : Byte) = 47) := by decide
    simp [extLoop, h1]
  | cons c cs ih =>
    have hc := h c (List.mem_cons_self _ _)
    have key := ih (c :: acc) (fun x hx => h x (List.mem_cons_of_mem _ hx))
    rw [List.cons_append, extLoop, if_neg hc.1, if_neg hc.2, key]
    simp

theorem extLoop_none (l rest acc : List Byte) (h : ∀ c ∈ l, c ≠ 47 ∧ c ≠ 46)
    (hrest : rest = [] ∨ ∃ r, rest = 47 :: r) : extLoop (l ++ rest) acc = [] := by
  induction l generalizing acc with
  | nil =>
    rcases hrest with rfl | ⟨r, rfl⟩
    · rfl
    · simp [extLoop]
  | cons c cs ih =>
    have hc := h c (List.mem_cons_self _ _)
    rw [List.cons_append, extLoop, if_neg hc.1, if_neg hc.2]
    exact ih _ (fun x hx => h x (List.mem_cons_of_mem _ hx))

theorem takeWhile_stem (l rest : List Byte) (h : ∀ c ∈ l, c ≠ 47)
    (hrest : rest = [] ∨ ∃ r, rest = 47 :: r) :
    (l ++ rest).takeWhile (fun c => decide (c ≠ 47)) = l := by
  induction l with
  | nil =>
    rcases hrest with rfl | ⟨r, rfl⟩
    · rfl
    · simp
  | cons c cs ih =>
    have hc := h c (List.mem_cons_self _ _)
    simp only [List.cons_append, List.takeWhile_cons, hc, ne_eq, not_false_eq_true,
      decide_True, if_true]
    rw [ih (fun x hx => h x (List.mem_cons_of_mem _ hx))]

theorem Base_last (dir stem : GoString) (hstem : stem ≠ []) (hs : ∀ c ∈ stem, c ≠ 47)
    (hdir : dir = [] ∨ ∃ d, dir = d ++ [47]) : Base (dir ++ stem) = stem := by
  have hne : dir ++ stem ≠ [] := by simp [hstem]
  have hrev : dir.reverse = [] ∨ ∃ r, dir.reverse = 47 :: r := by
    rcases hdir with rfl | ⟨d, rfl⟩
    · exact Or.inl rfl
    · exact Or.inr ⟨d.reverse, by simp⟩
  obtain ⟨x, t, hxt⟩ : ∃ x t, stem.reverse = x :: t := by
    cases hr : stem.reverse with
    | nil => exact absurd (List.reverse_eq_nil_iff.mp hr) hstem
    | cons x t => exact ⟨x, t, rfl⟩
  have hx : x ≠ 47 := hs x (by
    have : x ∈ stem.reverse := by rw [hxt]; exact List.mem_cons_self _ _
    exact List.mem_reverse.mp this)
  have hs' : ∀ c ∈ stem.reverse, c ≠ 47 := fun c hc => hs c (List.mem_reverse.mp hc)
  have hdrop : (dir ++ stem).reverse.dropWhile (fun c => decide (c = 47))
      = stem.reverse ++ dir.reverse := by
    rw [List.reverse_append, hxt]
    simp [List.dropWhile_cons, hx]
  unfold Base
  rw [if_neg hne]
  simp only [hdrop, takeWhile_stem _ _ hs' hrev, List.reverse_reverse, if_neg hstem]

/-- The part of C10 that holds: when the last element of the path is
`stem ++ "." ++ ext` with a non-empty `stem` and no further dot in `ext`, the
name computed by `createNewSecrets` is `stem`, as the specification words it. -/
theorem name_with_extension (dir stem ext : GoString) (hstem : stem ≠ [])
    (hs : ∀ c ∈ stem, c ≠ 47) (hext : ∀ c ∈ ext, c ≠ 47 ∧ c ≠ 46)
    (hdir : dir = [] ∨ ∃ d, dir = d ++ [47]) :
    Base ((dir ++ stem ++ 46 :: ext).take
      ((dir ++ stem ++ 46 :: ext).length - (Ext (dir ++ stem ++ 46 :: ext)).length)) = stem ∧
    nameFromSpec (dir ++ stem ++ 46 :: ext) = stem := by
  have hext' : ∀ c ∈ ext.reverse, c ≠ 47 ∧ c ≠ 46 := fun c hc => hext c (List.mem_reverse.mp hc)
  have hE : ∀ pre : GoString, Ext (pre ++ 46 :: ext) = 46 :: ext := by
    intro pre
    unfold Ext
    rw [List.reverse_append, List.reverse_cons, List.append_assoc, List.singleton_append,
      extLoop_dot _ _ _ hext']
    simp
  have htake : ∀ pre : GoString,
      (pre ++ 46 :: ext).take ((pre ++ 46 :: ext).length - (46 :: ext : GoString).length)
        = pre := by
    intro pre
    simp
  constructor
  · rw [hE (dir ++ stem), htake (dir ++ stem), Base_last dir stem hstem hs hdir]
  · unfold nameFromSpec
    have hb : Base (dir ++ stem ++ 46 :: ext) = stem ++ 46 :: ext := by
      rw [List.append_assoc]
      refine Base_last dir (stem ++ 46 :: ext) (by simp) ?_ hdir
      intro c hc
      rcases List.mem_append.mp hc with h | h
      · exact hs c h
      · rcases List.mem_cons.mp h with h | h
        · rw [h]; decide
        · exact (hext c h).1
    simp only [hb]
    rw [hE stem, htake stem]

/-- The part of C10 that holds, without extension: when the last element of the
path is a non-empty `stem` without a dot, the name is `stem`. -/
theorem name_without_extension (dir stem : GoString) (hstem : stem ≠ [])
    (hs : ∀ c ∈ stem, c ≠ 47 ∧ c ≠ 46) (hdir : dir = [] ∨ ∃ d, dir = d ++ [47]) :
    Base ((dir ++ stem).take ((dir ++ stem).length - (Ext (dir ++ stem)).length)) = stem ∧
    nameFromSpec (dir ++ stem) = stem := by
  have hs' : ∀ c ∈ stem.reverse, c ≠ 47 ∧ c ≠ 46 := fun c hc => hs c (List.mem_reverse.mp hc)
  have hrev : dir.reverse = [] ∨ ∃ r, dir.reverse = 47 :: r := by
    rcases hdir with rfl | ⟨d, rfl⟩
    · exact Or.inl rfl
    · exact Or.inr ⟨d.reverse, by simp⟩
  have hE : Ext (dir ++ stem) = [] := by
    unfold Ext
    rw [List.reverse_append, extLoop_none _ _ _ hs' hrev]
  have hE' : Ext stem = [] := by
    unfold Ext
    have := extLoop_none stem.reverse [] [] hs' (Or.inl rfl)
    rwa [List.append_nil] at this
  have hb := Base_last dir stem hstem (fun c hc => (hs c hc).1) hdir
  constructor
  · rw [hE, List.length_nil, Nat.sub_zero, List.take_length]
    exact hb
  · unfold nameFromSpec
    simp only [hb, hE']
    simp

/-- The editor `vim` on content `TEST_DATA\n`: the trailing newline is dropped before encoding. -/
theorem editor_vim_strips :
    editor { testWorld with EDITOR := goStr "vim",
                            lookPath := fun _ => some (goStr "/usr/bin/vim") } []
      = .ret (goStr "VEVTVF9EQVRB", none) := by
  decide

end KubeSecrets
